import Mathlib

/-!
Shallow embedding of the secret-santa repository core (`src/secret-santa.py`,
with `src/secret-santa-eum.py` sharing the identical assignment core), together
with theorems settling the frozen claims about it.

The Python core is pure apart from (a) the process-global `random` module used
by `random.shuffle`, modelled here as an explicit draw stream `rng : Nat → Nat`
threaded through an explicit engine state, and (b) `sys.exit(2)` on failure,
modelled as `Except.error` carrying the reported attempt count.
-/

namespace SecretSanta

/-- One participant record, as built by `load_participants`:
`{"name": .., "phone": .., "is_couple": .., "couple_id": ..}`. -/
structure Participant where
  name : String
  phone : String
  is_couple : Bool
  couple_id : Option String
  deriving DecidableEq, Repr

instance : Inhabited Participant := ⟨⟨"", "", false, none⟩⟩

/-- `x[i], x[j] = x[j], x[i]` on a Python list of ints. -/
def swapList (l : List Nat) (i j : Nat) : List Nat :=
  (l.set i (l.getD j 0)).set j (l.getD i 0)

/-- Modelled from CPython `random.shuffle` (Fisher-Yates): for `i` from
`len(x) - 1` down to `1`, draw `j = randbelow(i + 1)` and swap `x[i], x[j]`.
The draw stream `rng` stands for the sequential draws of the random source;
`rng pos % (i + 2)` models `randbelow(i + 2)` for the draw at position `pos`.
The recursion argument is the current index `i`. -/
def shuffleIter (rng : Nat → Nat) : Nat → List Nat → Nat → List Nat × Nat
  | pos, l, 0 => (l, pos)
  | pos, l, i + 1 => shuffleIter rng (pos + 1) (swapList l (i + 1) (rng pos % (i + 2))) i

/-- `random.shuffle(l)`, returning the shuffled list and the advanced position
in the draw stream. -/
def pyShuffle (rng : Nat → Nat) (pos : Nat) (l : List Nat) : List Nat × Nat :=
  shuffleIter rng pos l (l.length - 1)

/-- The loop body of `is_valid_assignment`: iterate over
`enumerate(indices)` carrying `receiver_idx`, returning `False` at the first
violating position (self-gifting by name, or same-couple gifting). -/
def validFrom (participants : List Participant) : List Nat → Nat → Bool
  | [], _ => true
  | santa_idx :: rest, receiver_idx =>
      let receiver := participants.getD receiver_idx default
      let santa := participants.getD santa_idx default
      if santa.name == receiver.name then false
      else if santa.is_couple && receiver.is_couple && santa.couple_id == receiver.couple_id then
        false
      else validFrom participants rest (receiver_idx + 1)

/-- `is_valid_assignment(participants, indices)` from the source. -/
def is_valid_assignment (participants : List Participant) (indices : List Nat) : Bool :=
  validFrom participants indices 0

/-- The list comprehension
`[(participants[santa_idx], participants[receiver_idx]) for receiver_idx, santa_idx in enumerate(indices)]`,
carrying the running `receiver_idx`. -/
def buildPairingFrom (participants : List Participant) :
    List Nat → Nat → List (Participant × Participant)
  | [], _ => []
  | santa_idx :: rest, receiver_idx =>
      (participants.getD santa_idx default, participants.getD receiver_idx default)
        :: buildPairingFrom participants rest (receiver_idx + 1)

/-- The pairing returned by `generate_assignments` for an accepted permutation. -/
def buildPairing (participants : List Participant) (indices : List Nat) :
    List (Participant × Participant) :=
  buildPairingFrom participants indices 0

/-- The mutable state touched by `generate_assignments`: its `participants`
argument, the separately built `indices` list it shuffles in place, and the
position reached in the global random draw stream. -/
structure EngineState where
  participants : List Participant
  indices : List Nat
  rngPos : Nat
  deriving Repr

/-- One `random.shuffle(indices)` call, as a state transformation: it rewrites
only the `indices` list and advances the draw stream. -/
def stepShuffle (rng : Nat → Nat) (s : EngineState) : EngineState :=
  let r := pyShuffle rng s.rngPos s.indices
  { s with indices := r.1, rngPos := r.2 }

/-- State at entry of `generate_assignments`: `indices = list(range(n))`. -/
def initState (participants : List Participant) : EngineState :=
  { participants := participants, indices := List.range participants.length, rngPos := 0 }

/-- The `for attempt in range(max_attempts)` loop of `generate_assignments`,
by countdown on the remaining attempts.  On exhaustion the source logs the
total `max_attempts` and exits with code 2; we model that as
`Except.error maxAttempts` (the reported attempt count). -/
def genLoop (rng : Nat → Nat) (maxAttempts : Nat) :
    Nat → EngineState → Except Nat (List (Participant × Participant)) × EngineState
  | 0, s => (Except.error maxAttempts, s)
  | k + 1, s =>
      let s' := stepShuffle rng s
      if is_valid_assignment s'.participants s'.indices then
        (Except.ok (buildPairing s'.participants s'.indices), s')
      else
        genLoop rng maxAttempts k s'

/-- `generate_assignments(participants, max_attempts)` together with the final
engine state (used to state frame properties). -/
def generate_assignments_run (participants : List Participant) (rng : Nat → Nat)
    (maxAttempts : Nat := 1000) :
    Except Nat (List (Participant × Participant)) × EngineState :=
  genLoop rng maxAttempts maxAttempts (initState participants)

/-- `generate_assignments(participants, max_attempts)` from the source. -/
def generate_assignments (participants : List Participant) (rng : Nat → Nat)
    (maxAttempts : Nat := 1000) : Except Nat (List (Participant × Participant)) :=
  (generate_assignments_run participants rng maxAttempts).1

/-- The permutation produced by the `(k+1)`-st `random.shuffle` call (the draw
tested on attempt `k`, counting attempts from 0). -/
def nthDraw (participants : List Participant) (rng : Nat → Nat) (k : Nat) : List Nat :=
  ((stepShuffle rng)^[k + 1] (initState participants)).indices

/-- Index of the first attempt whose draw passes `is_valid_assignment`,
among the `maxAttempts` attempts of a run. -/
def acceptedDraw (participants : List Participant) (rng : Nat → Nat) (maxAttempts : Nat) :
    Option Nat :=
  (List.range maxAttempts).find? (fun k => is_valid_assignment participants (nthDraw participants rng k))

/-- `santa["phone"].replace(" ", "")`: every space character is removed. -/
def removeSpaces (s : String) : String :=
  ⟨s.data.filter (fun c => !(c == ' '))⟩

/-- The message template of `build_sms_messages`. -/
def smsMessage (santa receiver : Participant) (budget coin year : String) : String :=
  "Secret Santa " ++ year ++ "!!! Congratulations " ++ santa.name ++
    " you\x27re the Secret Santa of << " ++ receiver.name ++
    " >>. The gift\x27s budget is: " ++ budget ++ coin

/-- Python `dict` assignment `d[k] = v`: an existing key keeps its position and
gets the new value, a new key is appended. -/
def dictInsert (d : List (String × String)) (k v : String) : List (String × String) :=
  if d.any (fun e => e.1 == k) then
    d.map (fun e => if e.1 == k then (k, v) else e)
  else
    d ++ [(k, v)]

/-- Python `dict` lookup `d[k]` (as an option): first entry with the key. -/
def dictLookup : List (String × String) → String → Option String
  | [], _ => none
  | e :: rest, k => if e.1 == k then some e.2 else dictLookup rest k

/-- `build_sms_messages(assignments, budget, coin, year)` from the source:
`sms_to_send[phone] = message` for each `(santa, receiver)` pair. -/
def build_sms_messages (assignments : List (Participant × Participant))
    (budget coin year : String) : List (String × String) :=
  assignments.foldl
    (fun d sr => dictInsert d (removeSpaces sr.1.phone) (smsMessage sr.1 sr.2 budget coin year))
    []

/-- `f"couple{couple_counter}"`. -/
def mintCoupleId (couple_counter : Nat) : String :=
  "couple" ++ Nat.repr couple_counter

/-- Python `str.strip()`: remove leading and trailing whitespace. -/
def pyStrip (s : String) : String :=
  ⟨((s.data.dropWhile Char.isWhitespace).reverse.dropWhile Char.isWhitespace).reverse⟩

/-- Python `str.lower()`: lowercase every character. -/
def pyLower (s : String) : String :=
  ⟨s.data.map Char.toLower⟩

/-- The row loop of `load_participants`, over the data rows (header already
consumed), carrying `couple_counter`.  Empty rows are skipped; a `single` row
needs 3 fields, a `couple` row needs 5 fields and mints a fresh couple id
shared by its two records; anything else is logged and skipped. -/
def loadRows : List (List String) → Nat → List Participant
  | [], _ => []
  | row :: rest, couple_counter =>
      if row.isEmpty then loadRows rest couple_counter
      else
        let status := pyLower (pyStrip (row.getD 0 ""))
        if status == "single" then
          if row.length < 3 then loadRows rest couple_counter
          else
            { name := pyStrip (row.getD 1 ""), phone := pyStrip (row.getD 2 ""),
              is_couple := false, couple_id := none } :: loadRows rest couple_counter
        else if status == "couple" then
          if row.length < 5 then loadRows rest couple_counter
          else
            let couple_id := mintCoupleId couple_counter
            { name := pyStrip (row.getD 1 ""), phone := pyStrip (row.getD 2 ""),
              is_couple := true, couple_id := some couple_id }
              :: { name := pyStrip (row.getD 3 ""), phone := pyStrip (row.getD 4 ""),
                   is_couple := true, couple_id := some couple_id }
              :: loadRows rest (couple_counter + 1)
        else loadRows rest couple_counter

/-- Exit code used by the source on ingestion or assignment failure. -/
def EXIT_CODE_ASSIGNMENT_FAILED : Nat := 2

/-- `load_participants` restricted to its pure part: process the data rows and
fail (exit code 2) when fewer than two valid participants were ingested. -/
def load_participants (rows : List (List String)) : Except Nat (List Participant) :=
  let participants := loadRows rows 0
  if participants.length < 2 then Except.error EXIT_CODE_ASSIGNMENT_FAILED
  else Except.ok participants

/-- Substring test on char lists: `pat` occurs inside `l`. -/
def subListChar (pat : List Char) : List Char → Bool
  | [] => pat.isEmpty
  | c :: rest => pat.isPrefixOf (c :: rest) || subListChar pat rest

/-- Substring test on strings. -/
def containsSub (s pat : String) : Bool :=
  subListChar pat.data s.data

/-- Modelled from the spec words of the claim: the delivery key as the claim
states it, the contact identifier with all whitespace removed (the source only
removes the space character). -/
def specStripWhitespace (s : String) : String :=
  ⟨s.data.filter (fun c => !c.isWhitespace)⟩

/-! ### Concrete fixtures -/

/-- A couple member, for the guaranteed-infeasible roster. -/
def anaC : Participant := ⟨"Ana", "911 111 111", true, some "couple0"⟩

/-- The other member of the same couple. -/
def brunoC : Participant := ⟨"Bruno", "922 222 222", true, some "couple0"⟩

/-- Roster of exactly 2 participants forming one couple. -/
def psCouple : List Participant := [anaC, brunoC]

def anaS : Participant := ⟨"Ana", "911 111 111", false, none⟩

def brunoS : Participant := ⟨"Bruno", "922 222 222", false, none⟩

def carlaC : Participant := ⟨"Carla", "933 333 333", true, some "couple0"⟩

def diegoC : Participant := ⟨"Diego", "944 444 444", true, some "couple0"⟩

/-- The minimal valid roster of the spec scenario: two singles plus a couple. -/
def psFour : List Participant := [anaS, brunoS, carlaC, diegoC]

/-- A concrete draw stream: every draw is 0. -/
def rng0 : Nat → Nat := fun _ => 0

/-- A concrete draw stream: every draw is 1. -/
def rng1 : Nat → Nat := fun _ => 1

/-- A participant whose phone contains a tab character. -/
def tabSanta : Participant := ⟨"Tania", "9\t11", false, none⟩

/-- The pairing that `generate_assignments psFour rng0 10` returns (accepted
on attempt 1, permutation `[2, 3, 0, 1]`). -/
def pFour : List (Participant × Participant) :=
  [(carlaC, anaS), (diegoC, brunoS), (anaS, carlaC), (brunoS, diegoC)]

/-! ### Supporting lemmas: swapping and shuffling permute the index list -/

theorem length_swapList (l : List Nat) (i j : Nat) :
    (swapList l i j).length = l.length := by
  simp [swapList]

theorem getD_cons_set_perm (a : Nat) :
    ∀ (l : List Nat) (j : Nat), j < l.length →
      (l.getD j 0 :: l.set j a).Perm (a :: l) := by
  intro l
  induction l with
  | nil => intro j h; simp at h
  | cons c t ih =>
      intro j h
      match j with
      | 0 => simpa using List.Perm.swap a c t
      | j + 1 =>
          have hj : j < t.length := by simpa using Nat.lt_of_succ_lt_succ h
          have step1 : (t.getD j 0 :: c :: t.set j a).Perm (c :: t.getD j 0 :: t.set j a) :=
            List.Perm.swap c (t.getD j 0) (t.set j a)
          have step2 : (c :: t.getD j 0 :: t.set j a).Perm (c :: a :: t) :=
            (List.perm_cons c).mpr (ih j hj)
          have step3 : (c :: a :: t).Perm (a :: c :: t) := List.Perm.swap a c t
          simpa using (step1.trans step2).trans step3

theorem swapList_perm :
    ∀ (l : List Nat) (i j : Nat), i < l.length → j < l.length →
      (swapList l i j).Perm l := by
  intro l
  induction l with
  | nil => intro i j h; simp at h
  | cons a t ih =>
      intro i j hi hj
      match i, j with
      | 0, 0 => simp [swapList]
      | 0, j + 1 =>
          have hj' : j < t.length := by simpa using Nat.lt_of_succ_lt_succ hj
          simpa [swapList] using getD_cons_set_perm a t j hj'
      | i + 1, 0 =>
          have hi' : i < t.length := by simpa using Nat.lt_of_succ_lt_succ hi
          simpa [swapList] using getD_cons_set_perm a t i hi'
      | i + 1, j + 1 =>
          have hi' : i < t.length := by simpa using Nat.lt_of_succ_lt_succ hi
          have hj' : j < t.length := by simpa using Nat.lt_of_succ_lt_succ hj
          simpa [swapList] using (List.perm_cons a).mpr (ih i j hi' hj')

theorem shuffleIter_perm (rng : Nat → Nat) :
    ∀ (i : Nat) (pos : Nat) (l : List Nat), i < l.length →
      ((shuffleIter rng pos l i).1).Perm l := by
  intro i
  induction i with
  | zero => intro pos l _; simp [shuffleIter]
  | succ i ih =>
      intro pos l h
      have hj : rng pos % (i + 2) < l.length :=
        Nat.lt_of_lt_of_le (Nat.mod_lt _ (by omega)) (by omega)
      have hswap := swapList_perm l (i + 1) (rng pos % (i + 2)) h hj
      have hlen : i < (swapList l (i + 1) (rng pos % (i + 2))).length := by
        rw [length_swapList]; omega
      have ihp := ih (pos + 1) (swapList l (i + 1) (rng pos % (i + 2))) hlen
      simpa only [shuffleIter] using ihp.trans hswap

theorem pyShuffle_perm (rng : Nat → Nat) (pos : Nat) (l : List Nat) :
    ((pyShuffle rng pos l).1).Perm l := by
  rcases l with _ | ⟨a, t⟩
  · simp [pyShuffle, shuffleIter]
  · exact shuffleIter_perm rng ((a :: t).length - 1) pos (a :: t) (by simp)

/-! ### Supporting lemmas: the engine state across shuffles -/

theorem stepShuffle_participants (rng : Nat → Nat) (s : EngineState) :
    (stepShuffle rng s).participants = s.participants := rfl

theorem iterate_stepShuffle_participants (rng : Nat → Nat) :
    ∀ (t : Nat) (s : EngineState),
      (((stepShuffle rng)^[t]) s).participants = s.participants := by
  intro t
  induction t with
  | zero => intro s; rfl
  | succ t ih =>
      intro s
      rw [Function.iterate_succ_apply]
      rw [ih (stepShuffle rng s), stepShuffle_participants]

theorem stepShuffle_indices_perm (rng : Nat → Nat) (s : EngineState) :
    ((stepShuffle rng s).indices).Perm s.indices :=
  pyShuffle_perm rng s.rngPos s.indices

theorem iterate_stepShuffle_indices_perm (rng : Nat → Nat) :
    ∀ (t : Nat) (s : EngineState),
      ((((stepShuffle rng)^[t]) s).indices).Perm s.indices := by
  intro t
  induction t with
  | zero => intro s; exact List.Perm.refl _
  | succ t ih =>
      intro s
      rw [Function.iterate_succ_apply]
      exact (ih (stepShuffle rng s)).trans (stepShuffle_indices_perm rng s)

theorem nthDraw_perm (participants : List Participant) (rng : Nat → Nat) (k : Nat) :
    (nthDraw participants rng k).Perm (List.range participants.length) :=
  iterate_stepShuffle_indices_perm rng (k + 1) (initState participants)

theorem nthDraw_length (participants : List Participant) (rng : Nat → Nat) (k : Nat) :
    (nthDraw participants rng k).length = participants.length := by
  have h := (nthDraw_perm participants rng k).length_eq
  simpa using h

/-! ### Supporting lemmas: characterization of the attempt loop -/

/-- The attempt loop returns the pairing built from the first accepted draw, or
exhausts its countdown; the final state is the state reached by the shuffles
actually performed. -/
theorem genLoop_eq (rng : Nat → Nat) (m : Nat) :
    ∀ (k : Nat) (s : EngineState),
      genLoop rng m k s =
        match (List.range k).find?
            (fun j => is_valid_assignment s.participants ((((stepShuffle rng)^[j + 1]) s).indices)) with
        | some j =>
            (Except.ok (buildPairing s.participants ((((stepShuffle rng)^[j + 1]) s).indices)),
              ((stepShuffle rng)^[j + 1]) s)
        | none => (Except.error m, ((stepShuffle rng)^[k]) s) := by
  intro k
  induction k with
  | zero => intro s; simp [genLoop]
  | succ k ih =>
      intro s
      rw [List.range_succ_eq_map, genLoop]
      by_cases hv :
          is_valid_assignment (stepShuffle rng s).participants ((stepShuffle rng s).indices) = true
      · have hfind :
            List.find? (fun j => is_valid_assignment s.participants
                ((((stepShuffle rng)^[j + 1]) s).indices))
              (0 :: List.map Nat.succ (List.range k)) = some 0 := by
          rw [List.find?_cons]
          have hb : is_valid_assignment s.participants
              ((((stepShuffle rng)^[0 + 1]) s).indices) = true := hv
          rw [hb]
        rw [hfind, if_pos hv]
        rfl
      · have hcomp :
            ((fun j => is_valid_assignment s.participants
                ((((stepShuffle rng)^[j + 1]) s).indices)) ∘ Nat.succ) =
              (fun j => is_valid_assignment (stepShuffle rng s).participants
                ((((stepShuffle rng)^[j + 1]) (stepShuffle rng s)).indices)) := by
          funext j
          simp only [Function.comp_apply]
          rw [show j.succ + 1 = j + 1 + 1 from rfl,
            Function.iterate_succ_apply (stepShuffle rng) (j + 1) s,
            stepShuffle_participants]
        have hfind :
            List.find? (fun j => is_valid_assignment s.participants
                ((((stepShuffle rng)^[j + 1]) s).indices))
              (0 :: List.map Nat.succ (List.range k)) =
              Option.map Nat.succ
                (List.find? (fun j => is_valid_assignment (stepShuffle rng s).participants
                  ((((stepShuffle rng)^[j + 1]) (stepShuffle rng s)).indices))
                  (List.range k)) := by
          rw [List.find?_cons]
          have hb : is_valid_assignment s.participants
              ((((stepShuffle rng)^[0 + 1]) s).indices) = false := by
            cases hx : is_valid_assignment s.participants
                ((((stepShuffle rng)^[0 + 1]) s).indices) with
            | true => exact absurd hx hv
            | false => rfl
          rw [hb, List.find?_map, hcomp]
        rw [hfind, if_neg hv, ih (stepShuffle rng s)]
        rcases hfound : (List.find? (fun j => is_valid_assignment (stepShuffle rng s).participants
            ((((stepShuffle rng)^[j + 1]) (stepShuffle rng s)).indices)) (List.range k)) with _ | j
        · rfl
        · rfl

/-- The whole run, phrased through `acceptedDraw` and `nthDraw`. -/
theorem generate_assignments_run_eq (participants : List Participant) (rng : Nat → Nat)
    (m : Nat) :
    generate_assignments_run participants rng m =
      match acceptedDraw participants rng m with
      | some j =>
          (Except.ok (buildPairing participants (nthDraw participants rng j)),
            ((stepShuffle rng)^[j + 1]) (initState participants))
      | none => (Except.error m, ((stepShuffle rng)^[m]) (initState participants)) :=
  genLoop_eq rng m m (initState participants)

/-- If every draw within the attempt budget is rejected, the run fails with
the attempt count. -/
theorem generate_assignments_error_of_all_rejected (participants : List Participant)
    (rng : Nat → Nat) (m : Nat)
    (h : ∀ k, k < m → is_valid_assignment participants (nthDraw participants rng k) = false) :
    generate_assignments participants rng m = Except.error m := by
  have hacc : acceptedDraw participants rng m = none := by
    rw [acceptedDraw, List.find?_eq_none]
    intro x hx
    have hf := h x (List.mem_range.mp hx)
    simp [hf]
  rw [generate_assignments, generate_assignments_run_eq, hacc]

/-- A successful run returns exactly the pairing built from the first accepted
draw, which passed `is_valid_assignment`. -/
theorem generate_assignments_ok_inv (participants : List Participant) (rng : Nat → Nat)
    (m : Nat) (p : List (Participant × Participant))
    (h : generate_assignments participants rng m = Except.ok p) :
    ∃ j, acceptedDraw participants rng m = some j ∧ j < m ∧
      is_valid_assignment participants (nthDraw participants rng j) = true ∧
      p = buildPairing participants (nthDraw participants rng j) := by
  rcases hacc : acceptedDraw participants rng m with _ | j
  · rw [generate_assignments, generate_assignments_run_eq, hacc] at h
    have h' : (Except.error m : Except Nat (List (Participant × Participant))) = Except.ok p := h
    exact Except.noConfusion h'
  · rw [generate_assignments, generate_assignments_run_eq, hacc] at h
    have h' : Except.ok (buildPairing participants (nthDraw participants rng j)) = Except.ok p := h
    have hpq : buildPairing participants (nthDraw participants rng j) = p := by
      injection h'
    have hacc' : List.find?
        (fun k => is_valid_assignment participants (nthDraw participants rng k))
        (List.range m) = some j := hacc
    have hvj :=
      @List.find?_some Nat (fun k => is_valid_assignment participants (nthDraw participants rng k))
        j (List.range m) hacc'
    exact ⟨j, rfl, List.mem_range.mp (List.mem_of_find?_eq_some hacc'), hvj, hpq.symm⟩

/-! ### Supporting lemmas: the validity predicate and the built pairing -/

theorem validFrom_iff (ps : List Participant) :
    ∀ (l : List Nat) (r : Nat),
      validFrom ps l r = true ↔
        ∀ i, i < l.length →
          (ps.getD (l.getD i 0) default).name ≠ (ps.getD (r + i) default).name ∧
          ¬((ps.getD (l.getD i 0) default).is_couple = true ∧
            (ps.getD (r + i) default).is_couple = true ∧
            (ps.getD (l.getD i 0) default).couple_id = (ps.getD (r + i) default).couple_id) := by
  intro l
  induction l with
  | nil => intro r; simp [validFrom]
  | cons si rest ih =>
      intro r
      simp only [validFrom]
      by_cases h1 : (ps.getD si default).name == (ps.getD r default).name
      · rw [if_pos h1]
        apply iff_of_false (by simp)
        intro hall
        have h0 := hall 0 (by simp)
        exact h0.1 (beq_iff_eq.mp h1)
      · by_cases h2 : (ps.getD si default).is_couple && (ps.getD r default).is_couple &&
            ((ps.getD si default).couple_id == (ps.getD r default).couple_id)
        · rw [if_neg h1, if_pos h2]
          apply iff_of_false (by simp)
          intro hall
          have h0 := hall 0 (by simp)
          simp only [Bool.and_eq_true, beq_iff_eq] at h2
          exact h0.2 ⟨h2.1.1, h2.1.2, h2.2⟩
        · rw [if_neg h1, if_neg h2, ih (r + 1)]
          constructor
          · intro hrest i hi
            match i with
            | 0 =>
                refine ⟨fun heq => h1 (beq_iff_eq.mpr heq), fun hc => h2 ?_⟩
                simp only [Bool.and_eq_true, beq_iff_eq]
                exact ⟨⟨hc.1, hc.2.1⟩, hc.2.2⟩
            | i + 1 =>
                have hP := hrest i (by simpa using Nat.lt_of_succ_lt_succ hi)
                simpa [show r + (i + 1) = r + 1 + i from by omega] using hP
          · intro hall i hi
            have hP := hall (i + 1) (by simpa using Nat.succ_lt_succ hi)
            simpa [show r + (i + 1) = r + 1 + i from by omega] using hP

/-- `is_valid_assignment` passes exactly when no position violates the
self-gifting rule or the same-couple rule. -/
theorem is_valid_assignment_iff (ps : List Participant) (indices : List Nat) :
    is_valid_assignment ps indices = true ↔
      ∀ i, i < indices.length →
        (ps.getD (indices.getD i 0) default).name ≠ (ps.getD i default).name ∧
        ¬((ps.getD (indices.getD i 0) default).is_couple = true ∧
          (ps.getD i default).is_couple = true ∧
          (ps.getD (indices.getD i 0) default).couple_id = (ps.getD i default).couple_id) := by
  rw [is_valid_assignment, validFrom_iff]
  constructor
  · intro h i hi
    have := h i hi
    simpa using this
  · intro h i hi
    have := h i hi
    simpa using this

theorem buildPairingFrom_length (ps : List Participant) :
    ∀ (l : List Nat) (r : Nat), (buildPairingFrom ps l r).length = l.length := by
  intro l
  induction l with
  | nil => intro r; rfl
  | cons si rest ih => intro r; simp [buildPairingFrom, ih]

theorem buildPairingFrom_getD (ps : List Participant) :
    ∀ (l : List Nat) (r i : Nat), i < l.length →
      (buildPairingFrom ps l r).getD i (default, default) =
        (ps.getD (l.getD i 0) default, ps.getD (r + i) default) := by
  intro l
  induction l with
  | nil => intro r i hi; simp at hi
  | cons si rest ih =>
      intro r i hi
      match i with
      | 0 => simp [buildPairingFrom]
      | i + 1 =>
          have hP := ih (r + 1) i (by simpa using Nat.lt_of_succ_lt_succ hi)
          simpa [buildPairingFrom, show r + (i + 1) = r + 1 + i from by omega] using hP

theorem buildPairingFrom_eq_zip (ps : List Participant) :
    ∀ (l : List Nat) (r : Nat), r + l.length ≤ ps.length →
      buildPairingFrom ps l r =
        (l.map (fun si => ps.getD si default)).zip (ps.drop r) := by
  intro l
  induction l with
  | nil => intro r h; simp [buildPairingFrom]
  | cons si rest ih =>
      intro r h
      have hr : r < ps.length := by
        simp only [List.length_cons] at h
        omega
      have hdrop : ps.drop r = ps.getD r default :: ps.drop (r + 1) := by
        rw [List.getD_eq_getElem]
        · exact List.drop_eq_getElem_cons hr
      simp only [buildPairingFrom, List.map_cons, hdrop, List.zip_cons_cons]
      rw [ih (r + 1) (by simp only [List.length_cons] at h; omega)]

theorem map_getD_range (l : List Participant) :
    (List.range l.length).map (fun i => l.getD i default) = l := by
  induction l with
  | nil => rfl
  | cons a t ih =>
      rw [List.length_cons, List.range_succ_eq_map, List.map_cons, List.map_map]
      have hfun : ((fun i => (a :: t).getD i default) ∘ Nat.succ) =
          (fun i => t.getD i default) := rfl
      rw [hfun, ih]
      rfl

/-- Over the whole run, succeeding or failing, the participants component of
the engine state is never written. -/
theorem generate_assignments_run_participants (participants : List Participant)
    (rng : Nat → Nat) (m : Nat) :
    (generate_assignments_run participants rng m).2.participants = participants := by
  rw [generate_assignments_run_eq]
  rcases acceptedDraw participants rng m with _ | j
  · rw [iterate_stepShuffle_participants]; rfl
  · rw [iterate_stepShuffle_participants]; rfl

theorem perm_pair (l : List Nat) (h : l.Perm [0, 1]) : l = [0, 1] ∨ l = [1, 0] := by
  have hlen : l.length = 2 := by simpa using h.length_eq
  rcases l with _ | ⟨x, l⟩
  · simp at hlen
  rcases l with _ | ⟨y, l⟩
  · simp at hlen
  rcases l with _ | ⟨z, l⟩
  · have hx : x = 0 ∨ x = 1 := by
      have hm := h.mem_iff.mp (List.mem_cons_self x [y])
      simpa using hm
    rcases hx with hx | hx
    · subst hx
      have h' : [y].Perm [1] := h.cons_inv
      have hy : y = 1 := by simpa using List.perm_singleton.mp h'
      subst hy
      exact Or.inl rfl
    · subst hx
      have hswap : ([0, 1] : List Nat).Perm [1, 0] := List.Perm.swap 1 0 []
      have h' : [y].Perm [0] := (h.trans hswap).cons_inv
      have hy : y = 0 := by simpa using List.perm_singleton.mp h'
      subst hy
      exact Or.inr rfl
  · simp at hlen

/-! ### Claim theorems -/

/-- Claim C1: a permutation passes `is_valid_assignment` iff no position pairs
a participant with a same-named santa or pairs two members of the same couple,
and every pairing returned by `generate_assignments` satisfies both rules at
every position. -/
theorem assignment_exclusion_rules (ps : List Participant) (indices : List Nat) :
    (is_valid_assignment ps indices = true ↔
      ∀ i, i < indices.length →
        (ps.getD (indices.getD i 0) default).name ≠ (ps.getD i default).name ∧
        ¬((ps.getD (indices.getD i 0) default).is_couple = true ∧
          (ps.getD i default).is_couple = true ∧
          (ps.getD (indices.getD i 0) default).couple_id = (ps.getD i default).couple_id)) ∧
    (∀ (rng : Nat → Nat) (m : Nat) (p : List (Participant × Participant)),
      generate_assignments ps rng m = Except.ok p →
      ∀ i, i < p.length →
        (p.getD i (default, default)).1.name ≠ (p.getD i (default, default)).2.name ∧
        ¬((p.getD i (default, default)).1.is_couple = true ∧
          (p.getD i (default, default)).2.is_couple = true ∧
          (p.getD i (default, default)).1.couple_id =
            (p.getD i (default, default)).2.couple_id)) := by
  constructor
  · exact is_valid_assignment_iff ps indices
  · intro rng m p h i hi
    obtain ⟨j, hacc, hjm, hval, hp⟩ := generate_assignments_ok_inv ps rng m p h
    subst hp
    have hi' : i < (nthDraw ps rng j).length := by
      rwa [buildPairing, buildPairingFrom_length] at hi
    have hgetD := buildPairingFrom_getD ps (nthDraw ps rng j) 0 i hi'
    have hrules := (is_valid_assignment_iff ps (nthDraw ps rng j)).mp hval i hi'
    rw [buildPairing, hgetD]
    simpa using hrules

/-- Claim C2: every pairing returned by `generate_assignments` has one entry
per participant, and the santas and the receivers are each a permutation
(multiset equal) of the original participant list. -/
theorem assignment_bijection (ps : List Participant) (rng : Nat → Nat) (m : Nat)
    (p : List (Participant × Participant))
    (h : generate_assignments ps rng m = Except.ok p) :
    p.length = ps.length ∧ (p.map Prod.fst).Perm ps ∧ (p.map Prod.snd).Perm ps := by
  obtain ⟨j, hacc, hjm, hval, hp⟩ := generate_assignments_ok_inv ps rng m p h
  subst hp
  have hlen : (nthDraw ps rng j).length = ps.length := nthDraw_length ps rng j
  have hzip : buildPairing ps (nthDraw ps rng j) =
      ((nthDraw ps rng j).map (fun si => ps.getD si default)).zip ps := by
    rw [buildPairing, buildPairingFrom_eq_zip ps (nthDraw ps rng j) 0 (by omega),
      List.drop_zero]
  refine ⟨?_, ?_, ?_⟩
  · rw [buildPairing, buildPairingFrom_length, hlen]
  · rw [hzip, List.map_fst_zip _ _ (by simp [hlen])]
    have hpm := (nthDraw_perm ps rng j).map (fun si => ps.getD si default)
    rwa [map_getD_range ps] at hpm
  · rw [hzip, List.map_snd_zip _ _ (by simp [hlen])]

/-- Claim C3: if no draw within `max_attempts` passes the validity predicate,
`generate_assignments` fails with the assignment-infeasible error carrying the
attempt count, and a success is always a fully built pairing from a draw that
passed the predicate — never a partial or invalid pairing. -/
theorem assignment_failure_reports_attempts (ps : List Participant) (rng : Nat → Nat)
    (m : Nat) :
    ((∀ k, k < m → is_valid_assignment ps (nthDraw ps rng k) = false) →
      generate_assignments ps rng m = Except.error m) ∧
    (∀ p, generate_assignments ps rng m = Except.ok p →
      ∃ j, j < m ∧ is_valid_assignment ps (nthDraw ps rng j) = true ∧
        p = buildPairing ps (nthDraw ps rng j)) := by
  constructor
  · exact generate_assignments_error_of_all_rejected ps rng m
  · intro p h
    obtain ⟨j, _, hjm, hval, hp⟩ := generate_assignments_ok_inv ps rng m p h
    exact ⟨j, hjm, hval, hp⟩

/-- Claim C3 witness: on the 2-member-couple roster with every draw 0 and an
attempt budget of 2, both draws are rejected and the run fails carrying 2. -/
theorem assignment_failure_reports_attempts_witness :
    generate_assignments psCouple rng0 2 = Except.error 2 :=
  (assignment_failure_reports_attempts psCouple rng0 2).1 (by decide)

set_option maxRecDepth 4000 in
/-- Claim C4 counterexample: on the roster of exactly 2 participants forming
one couple, the source exhausts all 1000 default attempts and reports 1000 —
it does not fail within 1 attempt. -/
theorem two_member_couple_roster_cex :
    generate_assignments psCouple rng0 1000 = Except.error 1000 := by
  rfl

/-- Claim C4 (amended): on a roster of exactly 2 participants forming one
couple, every shuffle is rejected, so for every draw stream and every attempt
budget `generate_assignments` fails with the assignment-infeasible error only
after exhausting all `max_attempts` attempts (reporting `max_attempts`), and
never returns a pairing. -/
theorem two_member_couple_roster_always_exhausts (rng : Nat → Nat) (m : Nat) :
    generate_assignments psCouple rng m = Except.error m := by
  apply generate_assignments_error_of_all_rejected
  intro k hk
  have hperm : (nthDraw psCouple rng k).Perm [0, 1] := by
    have h0 : List.range psCouple.length = [0, 1] := rfl
    have := nthDraw_perm psCouple rng k
    rwa [h0] at this
  rcases perm_pair _ hperm with h | h
  · rw [h]; rfl
  · rw [h]; rfl

/-- Claim C5 (code evidence): the embedded draw stream stands for the hidden
process-global `random` state that the source reads inside
`generate_assignments`; holding the explicit arguments fixed and changing only
that hidden stream changes the result, so the observable behaviour depends on
state that is not an injected parameter of the core. -/
theorem generate_assignments_depends_on_global_stream :
    generate_assignments psFour rng0 10 = Except.ok pFour ∧
    generate_assignments psFour rng1 10 = Except.error 10 :=
  ⟨rfl, rfl⟩

/-- Claim C6: a successful run returns exactly the zip of the permuted
participant list (as santas) with the participant list in roster order (as
receivers): position `i` holds `(participants[permutation[i]], participants[i])`
for the accepted permutation. -/
theorem assignment_output_is_zip_of_accepted_draw (ps : List Participant)
    (rng : Nat → Nat) (m : Nat) (p : List (Participant × Participant)) (k : Nat)
    (h : generate_assignments ps rng m = Except.ok p)
    (hk : acceptedDraw ps rng m = some k) :
    p = ((nthDraw ps rng k).map (fun si => ps.getD si default)).zip ps ∧
    (∀ i, i < p.length →
      p.getD i (default, default) =
        (ps.getD ((nthDraw ps rng k).getD i 0) default, ps.getD i default)) := by
  obtain ⟨j, hacc, hjm, hval, hp⟩ := generate_assignments_ok_inv ps rng m p h
  rw [hacc] at hk
  have hjk : j = k := by injection hk
  subst hjk
  subst hp
  have hlen : (nthDraw ps rng j).length = ps.length := nthDraw_length ps rng j
  constructor
  · rw [buildPairing, buildPairingFrom_eq_zip ps (nthDraw ps rng j) 0 (by omega),
      List.drop_zero]
  · intro i hi
    have hi' : i < (nthDraw ps rng j).length := by
      rwa [buildPairing, buildPairingFrom_length] at hi
    have := buildPairingFrom_getD ps (nthDraw ps rng j) 0 i hi'
    rw [buildPairing, this]
    simp

/-- Claim C6 witness: the concrete run on the minimal valid roster, accepted
on attempt 1 with permutation `[2, 3, 0, 1]`. -/
theorem assignment_output_is_zip_witness :
    pFour = ((nthDraw psFour rng0 1).map (fun si => psFour.getD si default)).zip psFour :=
  (assignment_output_is_zip_of_accepted_draw psFour rng0 10 pFour 1 (by rfl) (by rfl)).1

/-- Claim C10: `generate_assignments` never writes its participants input: in
the engine state threaded through the whole run, succeeding or failing, the
participants component after the call equals the input list — only the
separately built index list and the draw-stream position are rewritten. -/
theorem generate_assignments_preserves_input (ps : List Participant) (rng : Nat → Nat)
    (m : Nat) :
    (generate_assignments_run ps rng m).2.participants = ps :=
  generate_assignments_run_participants ps rng m

/-- Claim C1 witness: the accepted permutation of the concrete run passes the
predicate, and position 0 of the returned pairing respects the name rule. -/
theorem assignment_exclusion_rules_witness :
    is_valid_assignment psFour [2, 3, 0, 1] = true ∧
    (pFour.getD 0 (default, default)).1.name ≠ (pFour.getD 0 (default, default)).2.name := by
  constructor
  · exact (assignment_exclusion_rules psFour [2, 3, 0, 1]).1.mpr (by decide)
  · exact ((assignment_exclusion_rules psFour [2, 3, 0, 1]).2 rng0 10 pFour (by rfl) 0
      (by decide)).1

/-- Claim C2 witness: the concrete run on the minimal valid roster produces 4
entries whose santas and receivers are each a permutation of the roster. -/
theorem assignment_bijection_witness :
    pFour.length = psFour.length ∧ (pFour.map Prod.fst).Perm psFour ∧
      (pFour.map Prod.snd).Perm psFour :=
  assignment_bijection psFour rng0 10 pFour (by rfl)

/-! ### Supporting lemmas: the message dictionary -/

theorem dictLookup_map_update_other (k v q : String) (hq : q ≠ k) :
    ∀ (d : List (String × String)),
      dictLookup (d.map (fun e => if e.1 == k then (k, v) else e)) q = dictLookup d q := by
  intro d
  induction d with
  | nil => rfl
  | cons e d ih =>
      simp only [List.map_cons]
      by_cases he : e.1 = k
      · have hhead : (if e.1 == k then (k, v) else e) = (k, v) := by simp [he]
        have heq : e.1 ≠ q := by rw [he]; exact fun h => hq h.symm
        rw [hhead, dictLookup,
          if_neg (show ¬(((k, v).1 == q) = true) by
            simp only [beq_iff_eq]
            exact fun h => hq h.symm),
          ih, dictLookup, if_neg (by simp [heq])]
      · have hhead : (if e.1 == k then (k, v) else e) = e := by simp [he]
        rw [hhead, dictLookup]
        by_cases hd : e.1 = q
        · rw [if_pos (by simpa using hd), dictLookup, if_pos (by simpa using hd)]
        · rw [if_neg (by simp [hd]), ih, dictLookup, if_neg (by simp [hd])]

theorem dictLookup_append_other (k v q : String) (hq : q ≠ k) :
    ∀ (d : List (String × String)),
      dictLookup (d ++ [(k, v)]) q = dictLookup d q := by
  intro d
  induction d with
  | nil =>
      have hkq : k ≠ q := fun h => hq h.symm
      simp [dictLookup, hkq]
  | cons e d ih =>
      by_cases hd : e.1 = q
      · simp [dictLookup, hd]
      · simp [dictLookup, hd, ih]

theorem dictLookup_map_update_self (k v : String) :
    ∀ (d : List (String × String)), (d.any fun e => e.1 == k) = true →
      dictLookup (d.map (fun e => if e.1 == k then (k, v) else e)) k = some v := by
  intro d
  induction d with
  | nil => intro h; simp at h
  | cons e d ih =>
      intro hany
      simp only [List.map_cons]
      by_cases he : e.1 = k
      · simp [dictLookup, he]
      · have hd : (d.any fun e => e.1 == k) = true := by
          simp only [List.any_cons] at hany
          rcases Bool.or_eq_true_iff.mp hany with h | h
          · exact absurd (by simpa using h) he
          · exact h
        have hhead : (if e.1 == k then (k, v) else e) = e := by simp [he]
        rw [hhead, dictLookup, if_neg (by simp [he]), ih hd]

theorem dictLookup_append_self (k v : String) :
    ∀ (d : List (String × String)), (d.any fun e => e.1 == k) = false →
      dictLookup (d ++ [(k, v)]) k = some v := by
  intro d
  induction d with
  | nil => intro _; simp [dictLookup]
  | cons e d ih =>
      intro hany
      simp only [List.any_cons, Bool.or_eq_false_iff] at hany
      have hek : e.1 ≠ k := by simpa using hany.1
      simp [dictLookup, hek, ih hany.2]

/-- Python dict update semantics for `dictLookup` after `dictInsert`. -/
theorem dictLookup_dictInsert (d : List (String × String)) (k v q : String) :
    dictLookup (dictInsert d k v) q = if q = k then some v else dictLookup d q := by
  rw [dictInsert]
  by_cases hq : q = k
  · rw [if_pos hq]
    subst hq
    by_cases hany : (d.any fun e => e.1 == q) = true
    · rw [if_pos hany]
      exact dictLookup_map_update_self q v d hany
    · have hany' : (d.any fun e => e.1 == q) = false := by
        cases hb : (d.any fun e => e.1 == q) with
        | true => exact absurd hb hany
        | false => rfl
      rw [if_neg hany]
      exact dictLookup_append_self q v d hany'
  · rw [if_neg hq]
    by_cases hany : (d.any fun e => e.1 == k) = true
    · rw [if_pos hany]
      exact dictLookup_map_update_other k v q hq d
    · rw [if_neg hany]
      exact dictLookup_append_other k v q hq d

theorem build_sms_messages_foldl_lookup (budget coin year : String) :
    ∀ (l : List (Participant × Participant)) (d : List (String × String)) (q : String),
      dictLookup
        (l.foldl (fun d sr => dictInsert d (removeSpaces sr.1.phone)
          (smsMessage sr.1 sr.2 budget coin year)) d) q =
      match (l.filter fun sr => removeSpaces sr.1.phone == q).getLast? with
      | some sr => some (smsMessage sr.1 sr.2 budget coin year)
      | none => dictLookup d q := by
  intro l
  induction l with
  | nil => intro d q; rfl
  | cons sr rest ih =>
      intro d q
      rw [List.foldl_cons, ih]
      by_cases hq : removeSpaces sr.1.phone = q
      · rw [List.filter_cons_of_pos (by simpa using hq)]
        rcases hflt : (rest.filter fun sr => removeSpaces sr.1.phone == q) with _ | ⟨x, xs⟩
        · rw [hflt]
          simp only [List.getLast?_singleton]
          rw [dictLookup_dictInsert, if_pos hq.symm]
          rfl
        · rw [hflt, List.getLast?_cons_cons]
          rcases hg : (x :: xs).getLast? with _ | g
          · exact absurd (List.getLast?_eq_none_iff.mp hg) (by simp)
          · rfl
      · rw [List.filter_cons_of_neg (by simpa using hq)]
        rcases hlast : (rest.filter fun sr => removeSpaces sr.1.phone == q).getLast? with _ | last
        · rw [hlast, dictLookup_dictInsert, if_neg (fun h => hq h.symm)]
        · rw [hlast]

/-- Claim C7 (amended): `build_sms_messages` keys each message by the
assigner's phone with the space characters removed (other whitespace, such as
a tab, is kept); looking up a key returns the message composed for the LAST
assignment whose stripped phone equals that key — a colliding key silently
overwrites the earlier message, no error is raised, and the later message is
never dropped. -/
theorem build_sms_messages_last_wins (assignments : List (Participant × Participant))
    (budget coin year q : String) :
    dictLookup (build_sms_messages assignments budget coin year) q =
      ((assignments.filter fun sr => removeSpaces sr.1.phone == q).getLast?).map
        (fun sr => smsMessage sr.1 sr.2 budget coin year) := by
  rw [build_sms_messages, build_sms_messages_foldl_lookup]
  rcases hlast : (assignments.filter fun sr => removeSpaces sr.1.phone == q).getLast?
    with _ | last
  · rw [hlast]; rfl
  · rw [hlast]; rfl

/-- Claim C7 counterexample: for an assigner whose phone contains a tab, the
delivery key is not the whitespace-stripped identifier: one message is
composed, yet looking it up under the whitespace-stripped identifier finds
nothing, because the source removes only the space character. -/
theorem build_sms_messages_whitespace_cex :
    dictLookup (build_sms_messages [(tabSanta, brunoS)] "20" "€" "2024")
        (specStripWhitespace tabSanta.phone) = none ∧
    (build_sms_messages [(tabSanta, brunoS)] "20" "€" "2024").length = 1 :=
  ⟨rfl, rfl⟩

/-- Claim C8: for assigner Ana and receiver Bruno with budget 20, coin the
euro sign and year 2024, the message composed by `build_sms_messages` contains
the literal substrings 2024, Ana, Bruno, and the budget directly followed by
the currency symbol. -/
theorem sms_message_content :
    ((dictLookup (build_sms_messages [(anaS, brunoS)] "20" "€" "2024")
        (removeSpaces anaS.phone)).map
      (fun msg => containsSub msg "2024" && containsSub msg "Ana" &&
        containsSub msg "Bruno" && containsSub msg "20€")) = some true := by
  rfl

/-! ### Supporting lemmas: decimal rendering of the couple counter is injective -/

theorem toDigitsCore_append (b : Nat) :
    ∀ (f n : Nat) (ds : List Char),
      Nat.toDigitsCore b f n ds = Nat.toDigitsCore b f n [] ++ ds := by
  intro f
  induction f with
  | zero => intro n ds; rfl
  | succ f ih =>
      intro n ds
      simp only [Nat.toDigitsCore]
      by_cases h : n / b = 0
      · rw [if_pos h, if_pos h]
        rfl
      · rw [if_neg h, if_neg h, ih (n / b) (Nat.digitChar (n % b) :: ds),
          ih (n / b) [Nat.digitChar (n % b)], List.append_assoc]
        rfl

theorem toDigitsCore_length_pos (b : Nat) (f n : Nat) (hf : 1 ≤ f) :
    1 ≤ (Nat.toDigitsCore b f n []).length := by
  match f, hf with
  | f + 1, _ =>
      simp only [Nat.toDigitsCore]
      by_cases h : n / b = 0
      · rw [if_pos h]
        simp
      · rw [if_neg h, toDigitsCore_append]
        simp

theorem toDigitsCore_fuel (b : Nat) (hb : 2 ≤ b) :
    ∀ (n : Nat), ∀ (f g : Nat), n < f → n < g →
      Nat.toDigitsCore b f n [] = Nat.toDigitsCore b g n [] := by
  intro n
  induction n using Nat.strong_induction_on with
  | _ n ih =>
      intro f g hf hg
      obtain ⟨f', rfl⟩ : ∃ x, f = x + 1 := ⟨f - 1, by omega⟩
      obtain ⟨g', rfl⟩ : ∃ x, g = x + 1 := ⟨g - 1, by omega⟩
      simp only [Nat.toDigitsCore]
      by_cases h : n / b = 0
      · rw [if_pos h, if_pos h]
      · rw [if_neg h, if_neg h, toDigitsCore_append b f', toDigitsCore_append b g']
        have hn : 0 < n := by
          rcases Nat.eq_zero_or_pos n with h0 | h0
          · rw [h0] at h
            simp at h
          · exact h0
        have hlt : n / b < n := Nat.div_lt_self hn (by omega)
        rw [ih (n / b) hlt f' g' (by omega) (by omega)]

theorem digitChar_injOn :
    ∀ a, a < 10 → ∀ c, c < 10 → Nat.digitChar a = Nat.digitChar c → a = c := by
  decide

theorem append_singleton_eq {l₁ l₂ : List Char} {a c : Char}
    (h : l₁ ++ [a] = l₂ ++ [c]) : l₁ = l₂ ∧ a = c := by
  have h1 := congrArg List.reverse h
  simp only [List.reverse_append, List.reverse_cons, List.reverse_nil, List.nil_append,
    List.cons_append] at h1
  injection h1 with hac hrev
  refine ⟨?_, hac⟩
  have h2 := congrArg List.reverse hrev
  simpa using h2

theorem toDigits_ten_inj :
    ∀ (n m : Nat), Nat.toDigits 10 n = Nat.toDigits 10 m → n = m := by
  intro n
  induction n using Nat.strong_induction_on with
  | _ n ih =>
      intro m h
      rw [Nat.toDigits, Nat.toDigits] at h
      simp only [Nat.toDigitsCore] at h
      by_cases hn : n / 10 = 0 <;> by_cases hm : m / 10 = 0
      · rw [if_pos hn, if_pos hm] at h
        have hd : Nat.digitChar (n % 10) = Nat.digitChar (m % 10) := by
          injection h
        have := digitChar_injOn (n % 10) (by omega) (m % 10) (by omega) hd
        omega
      · rw [if_pos hn, if_neg hm, toDigitsCore_append] at h
        have hlen := congrArg List.length h
        rw [List.length_append] at hlen
        simp only [List.length_cons, List.length_nil] at hlen
        have hX := toDigitsCore_length_pos 10 m (m / 10) (by omega)
        omega
      · rw [if_neg hn, if_pos hm, toDigitsCore_append] at h
        have hlen := congrArg List.length h
        rw [List.length_append] at hlen
        simp only [List.length_cons, List.length_nil] at hlen
        have hX := toDigitsCore_length_pos 10 n (n / 10) (by omega)
        omega
      · rw [if_neg hn, if_neg hm,
          toDigitsCore_append 10 n (n / 10) [Nat.digitChar (n % 10)],
          toDigitsCore_append 10 m (m / 10) [Nat.digitChar (m % 10)]] at h
        obtain ⟨hXY, hd⟩ := append_singleton_eq h
        have hmod : n % 10 = m % 10 :=
          digitChar_injOn (n % 10) (by omega) (m % 10) (by omega) hd
        have hnp : 0 < n := by omega
        have hmp : 0 < m := by omega
        have hltn : n / 10 < n := Nat.div_lt_self hnp (by omega)
        have hltm : m / 10 < m := Nat.div_lt_self hmp (by omega)
        rw [toDigitsCore_fuel 10 (by omega) (n / 10) n (n / 10 + 1) (by omega) (by omega),
          toDigitsCore_fuel 10 (by omega) (m / 10) m (m / 10 + 1) (by omega) (by omega)]
          at hXY
        have hdiv := ih (n / 10) hltn (m / 10) hXY
        omega

theorem nat_repr_inj {n m : Nat} (h : Nat.repr n = Nat.repr m) : n = m := by
  apply toDigits_ten_inj
  have hd := congrArg String.data h
  simpa [Nat.repr, List.asString] using hd

theorem mintCoupleId_inj {a c : Nat} (h : mintCoupleId a = mintCoupleId c) : a = c := by
  rw [mintCoupleId, mintCoupleId] at h
  have hd := congrArg String.data h
  rw [String.data_append, String.data_append] at hd
  exact nat_repr_inj (String.ext (List.append_cancel_left hd))

/-- Every couple member emitted while processing rows with the counter at `cc`
carries an id minted at some counter value at least `cc`; singles carry none. -/
theorem loadRows_couple_id_mem :
    ∀ (rows : List (List String)) (cc : Nat) (q : Participant),
      q ∈ loadRows rows cc →
      q.couple_id = none ∨ ∃ j, cc ≤ j ∧ q.couple_id = some (mintCoupleId j) := by
  intro rows
  induction rows with
  | nil => intro cc q hq; simp [loadRows] at hq
  | cons row rest ih =>
      intro cc q hq
      simp only [loadRows] at hq
      split at hq
      · exact ih cc q hq
      · split at hq
        · split at hq
          · exact ih cc q hq
          · rcases List.mem_cons.mp hq with hq | hq
            · exact Or.inl (by rw [hq])
            · exact ih cc q hq
        · split at hq
          · split at hq
            · exact ih cc q hq
            · rcases List.mem_cons.mp hq with hq | hq
              · exact Or.inr ⟨cc, Nat.le_refl cc, by rw [hq]⟩
              · rcases List.mem_cons.mp hq with hq | hq
                · exact Or.inr ⟨cc, Nat.le_refl cc, by rw [hq]⟩
                · rcases ih (cc + 1) q hq with h | ⟨j, hj, hid⟩
                  · exact Or.inl h
                  · exact Or.inr ⟨j, by omega, hid⟩
          · exact ih cc q hq

/-- Malformed rows (short single, short couple, unknown status) are skipped:
processing continues on the remaining rows with the counter unchanged. -/
theorem loadRows_skip (row : List String) (rest : List (List String))
    (hne : row ≠ [])
    (hcase : (pyLower (pyStrip (row.getD 0 "")) = "single" ∧ row.length < 3) ∨
      (pyLower (pyStrip (row.getD 0 "")) = "couple" ∧ row.length < 5) ∨
      (pyLower (pyStrip (row.getD 0 "")) ≠ "single" ∧
       pyLower (pyStrip (row.getD 0 "")) ≠ "couple")) :
    ∀ cc, loadRows (row :: rest) cc = loadRows rest cc := by
  intro cc
  have hie : row.isEmpty = false := by
    cases row with
    | nil => exact absurd rfl hne
    | cons a r => rfl
  rcases hcase with ⟨hst, hlen⟩ | ⟨hst, hlen⟩ | ⟨hs1, hs2⟩
  · have hss : (pyLower (pyStrip (row.getD 0 "")) == "single") = true := by
      rw [hst]
      decide
    simp only [loadRows, hie, Bool.false_eq_true, if_false, hss, if_true, if_pos hlen]
  · have hns : (pyLower (pyStrip (row.getD 0 "")) == "single") = false := by
      rw [hst]
      decide
    have hcs : (pyLower (pyStrip (row.getD 0 "")) == "couple") = true := by
      rw [hst]
      decide
    simp only [loadRows, hie, Bool.false_eq_true, if_false, hns, hcs, if_true,
      if_pos hlen]
  · have hns : (pyLower (pyStrip (row.getD 0 "")) == "single") = false := by
      simpa using hs1
    have hnc : (pyLower (pyStrip (row.getD 0 "")) == "couple") = false := by
      simpa using hs2
    simp only [loadRows, hie, Bool.false_eq_true, if_false, hns, hnc]

/-- Claim C9: a well-formed couple row (status case-insensitively "couple",
4 data fields) appends exactly two records sharing the freshly minted id
`couple{counter}`, with names and phones taken stripped from the row, and
processing continues with the counter advanced; that id differs from the
couple id of every record minted afterwards (and all ids minted at different
counters differ); malformed rows are skipped without aborting ingestion. -/
theorem load_participants_couple_rows (row : List String) (rest : List (List String))
    (cc : Nat) :
    ((pyLower (pyStrip (row.getD 0 "")) = "couple") → row.length = 5 →
      loadRows (row :: rest) cc =
        { name := pyStrip (row.getD 1 ""), phone := pyStrip (row.getD 2 ""),
          is_couple := true, couple_id := some (mintCoupleId cc) }
          :: { name := pyStrip (row.getD 3 ""), phone := pyStrip (row.getD 4 ""),
               is_couple := true, couple_id := some (mintCoupleId cc) }
          :: loadRows rest (cc + 1)) ∧
    (∀ q, q ∈ loadRows rest (cc + 1) → q.couple_id ≠ some (mintCoupleId cc)) ∧
    ((row ≠ [] ∧
        ((pyLower (pyStrip (row.getD 0 "")) = "single" ∧ row.length < 3) ∨
         (pyLower (pyStrip (row.getD 0 "")) = "couple" ∧ row.length < 5) ∨
         (pyLower (pyStrip (row.getD 0 "")) ≠ "single" ∧
          pyLower (pyStrip (row.getD 0 "")) ≠ "couple"))) →
      loadRows (row :: rest) cc = loadRows rest cc ∧
      load_participants (row :: rest) = load_participants rest) := by
  refine ⟨?_, ?_, ?_⟩
  · intro hst hlen
    have hie : row.isEmpty = false := by
      cases row with
      | nil => simp at hlen
      | cons a r => rfl
    have hns : (pyLower (pyStrip (row.getD 0 "")) == "single") = false := by
      rw [hst]
      decide
    have hcs : (pyLower (pyStrip (row.getD 0 "")) == "couple") = true := by
      rw [hst]
      decide
    have hlt : ¬(row.length < 5) := by omega
    simp only [loadRows, hie, Bool.false_eq_true, if_false, hns, hcs, if_true,
      if_neg hlt]
  · intro q hq hid
    rcases loadRows_couple_id_mem rest (cc + 1) q hq with h | ⟨j, hj, h⟩
    · rw [h] at hid
      exact Option.noConfusion hid
    · rw [h] at hid
      have hmint : mintCoupleId j = mintCoupleId cc := by injection hid
      have := mintCoupleId_inj hmint
      omega
  · rintro ⟨hne, hcase⟩
    refine ⟨loadRows_skip row rest hne hcase cc, ?_⟩
    rw [load_participants, load_participants, loadRows_skip row rest hne hcase 0]

/-- Claim C9 witness: one concrete couple row yields the two shared-id records,
and one malformed row is skipped without aborting. -/
theorem load_participants_couple_rows_witness :
    loadRows [["Couple", "Ana", "911", "Bea", "922"]] 0 =
      [{ name := "Ana", phone := "911", is_couple := true,
         couple_id := some (mintCoupleId 0) },
       { name := "Bea", phone := "922", is_couple := true,
         couple_id := some (mintCoupleId 0) }] ∧
    loadRows [["huh"], ["couple", "C", "9", "D", "9"]] 0 =
      loadRows [["couple", "C", "9", "D", "9"]] 0 := by
  constructor
  · have h := (load_participants_couple_rows ["Couple", "Ana", "911", "Bea", "922"] [] 0).1
      (by decide) (by decide)
    exact h.trans (by decide)
  · exact ((load_participants_couple_rows ["huh"] [["couple", "C", "9", "D", "9"]] 0).2.2
      (by decide)).1

end SecretSanta
